import Mathlib

/-!
Shallow embedding of the query-dispatch + synthesis core of
`src/consult.py` (Multi-Model Domain Expert Consultation CLI).

Modelling conventions:
* Python `float` is modelled as `ℚ` (exact rational arithmetic).
* Python strings are modelled as Lean `String`; Python string operations
  (`lower`, `split`, `strip`, slicing, substring test, `re.split` on
  `[.!?]\s+`, `re.sub` on `[^\w\s-]`) are reimplemented below over
  `List Char` with ASCII character-class semantics (the source data and
  all inputs of interest are ASCII).
* Python `dict` (insertion-ordered) is modelled as an association list
  `List (String × β)`; assignment keeps the original position of an
  existing key (`upsert`), `defaultdict(list)` appending is `appendAt`,
  `Counter` is `bumpCount`.
* `list(set(xs))` has unspecified order in Python; it is modelled by the
  deterministic `List.dedup`.  No theorem below depends on that order.
* Python's stable `list.sort` is modelled by `List.insertionSort` (also
  stable); no theorem below depends on the order of sort ties.
* The `heapq` push-all / pop-all loop of `consult` is modelled by
  repeated extraction of a minimal element (`selectMin` / `heapExtract`),
  which is exactly the observable contract of a binary heap.
* The transport call of `query_model` (`session.post` + `resp.json()`)
  is abstracted into an `Outcome` per expert; a fallible function
  returns `Except PyExn`, where `PyExn.jsonDecodeError` models the
  `json.JSONDecodeError` that `resp.json()` raises on a 200 response
  whose body (served with a JSON content type) is not valid JSON —
  an exception the `except` clauses of `query_model` do not catch.
-/

/-! ### Python string primitives -/

/-- Python `\s` (ASCII): space, tab, newline, carriage return, vertical tab, form feed. -/
def pyIsSpace (c : Char) : Bool :=
  c = ' ' || c = '\t' || c = '\n' || c = '\r' || c = '\x0b' || c = '\x0c'

/-- Characters of the sentence-splitting class `[.!?]`. -/
def isTermChar (c : Char) : Bool := c = '.' || c = '!' || c = '?'

/-- Python `str.lower` (ASCII). -/
def strLower (s : String) : String := String.mk (s.data.map Char.toLower)

/-- Python `len` (code points). -/
def pyLen (s : String) : Nat := s.data.length

/-- Python slicing `s[:n]`. -/
def pySlice (s : String) (n : Nat) : String := String.mk (s.data.take n)

/-- Python `str.strip()`. -/
def pyStrip (s : String) : String :=
  String.mk (((s.data.dropWhile pyIsSpace).reverse.dropWhile pyIsSpace).reverse)

def headIsSpace : List Char → Bool
  | [] => false
  | c :: _ => pyIsSpace c

/-- Fuelled scanner for `re.split(r'[.!?]\s+', text)`: a terminal
punctuation character followed by a maximal (greedy) whitespace run is a
separator and is removed.  The fuel is the character count, which each
step strictly consumes, so the `0` case is unreachable from `splitSentences`. -/
def splitSentencesAux : Nat → List Char → List Char → List (List Char)
  | _, [], acc => [acc.reverse]
  | 0, rest, acc => [acc.reverse ++ rest]
  | n + 1, c :: rest, acc =>
    if isTermChar c && headIsSpace rest then
      acc.reverse :: splitSentencesAux n (rest.dropWhile pyIsSpace) []
    else
      splitSentencesAux n rest (c :: acc)

/-- Python `re.split(r'[.!?]\s+', s)`. -/
def splitSentences (s : String) : List String :=
  (splitSentencesAux s.data.length s.data []).map String.mk

def beginsWith : List Char → List Char → Bool
  | [], _ => true
  | _ :: _, [] => false
  | a :: as, b :: bs => a == b && beginsWith as bs

def containsSeg (needle : List Char) : List Char → Bool
  | [] => needle.isEmpty
  | c :: rest => beginsWith needle (c :: rest) || containsSeg needle rest

/-- Python substring test `needle in hay`. -/
def strContainsSub (needle hay : String) : Bool := containsSeg needle.data hay.data

def wordsAux : List Char → List Char → List (List Char)
  | [], acc => if acc.isEmpty then [] else [acc.reverse]
  | c :: rest, acc =>
    if pyIsSpace c then
      if acc.isEmpty then wordsAux rest [] else acc.reverse :: wordsAux rest []
    else wordsAux rest (c :: acc)

/-- Python `str.split()` (split on whitespace runs, no empty tokens). -/
def pySplit (s : String) : List String := (wordsAux s.data []).map String.mk

/-- Python `sep.join(xs)`. -/
def joinSep (sep : String) : List String → String
  | [] => ""
  | [w] => w
  | w :: ws => w ++ sep ++ joinSep sep ws

/-- Python `\w` (ASCII): alphanumeric or underscore. -/
def isWordChar (c : Char) : Bool := c.isAlphanum || c = '_'

/-- Python `re.sub(r'[^\w\s-]', '', s)`. -/
def cleanChars (s : String) : String :=
  String.mk (s.data.filter fun c => isWordChar c || pyIsSpace c || c = '-')

/-- Python string `<` : lexicographic comparison of code points. -/
def strLtL : List Char → List Char → Bool
  | [], [] => false
  | [], _ :: _ => true
  | _ :: _, [] => false
  | a :: as, b :: bs =>
    if a.toNat < b.toNat then true else if b.toNat < a.toNat then false else strLtL as bs

/-- Python string `<=` : lexicographic comparison of code points. -/
def strLeL : List Char → List Char → Bool
  | [], _ => true
  | _ :: _, [] => false
  | a :: as, b :: bs =>
    if a.toNat < b.toNat then true else if b.toNat < a.toNat then false else strLeL as bs

/-! ### Association-list models of Python dicts -/

/-- Dict assignment `d[k] = v`: overwrite in place, else append. -/
def upsert {β : Type} (k : String) (v : β) : List (String × β) → List (String × β)
  | [] => [(k, v)]
  | (k', v') :: rest => if k' = k then (k, v) :: rest else (k', v') :: upsert k v rest

/-- `defaultdict(list)` append `d[k].append(v)`. -/
def appendAt {β : Type} (k : String) (v : β) : List (String × List β) → List (String × List β)
  | [] => [(k, [v])]
  | (k', vs) :: rest =>
    if k' = k then (k', vs ++ [v]) :: rest else (k', vs) :: appendAt k v rest

/-- `Counter` increment. -/
def bumpCount (k : String) : List (String × Nat) → List (String × Nat)
  | [] => [(k, 1)]
  | (k', n) :: rest => if k' = k then (k', n + 1) :: rest else (k', n) :: bumpCount k rest

/-! ### Data model (the dataclasses of consult.py) -/

/-- `ModelResponse` dataclass.  `status` is one of "success", "error", "timeout". -/
structure ModelResponse where
  model : String
  domain : String
  response : Option String
  weight : ℚ
  duration_ms : Nat
  status : String
  error : Option String := none
deriving Repr, DecidableEq

/-- `ExtractedTheme` dataclass. -/
structure ExtractedTheme where
  theme : String
  supporting_models : List String
  confidence : ℚ
  evidence : List String
deriving Repr, DecidableEq

/-- `DetectedConflict` dataclass; `positions` is the insertion-ordered dict model → position. -/
structure DetectedConflict where
  topic : String
  positions : List (String × String)
  severity : String
  resolution_hint : Option String := none
deriving Repr, DecidableEq

/-- `ActionItem` dataclass. -/
structure ActionItem where
  action : String
  priority : String
  source_models : List String
  domain : String
  rationale : String
deriving Repr, DecidableEq

/-- `SynthesisResult` dataclass.  The wall-clock `timestamp` field
(`datetime.now().isoformat()`) is metadata outside the claims and is omitted. -/
structure SynthesisResult where
  question : String
  themes : List ExtractedTheme
  conflicts : List DetectedConflict
  action_items : List ActionItem
  domain_coverage : List (String × Nat)
  consensus_score : ℚ
  total_models : Nat
  successful_models : Nat
deriving Repr, DecidableEq

/-! ### SynthesisEngine keyword configuration (verbatim from the source) -/

def ACTION_INDICATORS : List String :=
  ["should", "recommend", "suggest", "consider", "implement",
   "start with", "begin by", "first step", "priority", "critical",
   "must", "need to", "important to", "key is", "focus on"]

def CONFLICT_INDICATORS : List String :=
  ["however", "alternatively", "on the other hand", "instead",
   "but", "conversely", "in contrast", "unlike", "whereas",
   "disagree", "different approach", "better option"]

def PRIORITY_HIGH : List String :=
  ["critical", "must", "essential", "urgent", "immediately", "first"]

def PRIORITY_MEDIUM : List String :=
  ["should", "recommend", "important", "consider"]

def PRIORITY_LOW : List String :=
  ["could", "might", "optional", "eventually", "nice to have"]

/-! ### SynthesisEngine.add_responses -/

/-- The filter of `add_responses`: `r.status == "success" and r.response`
(`r.response` truthy = present and non-empty). -/
def keepPred (r : ModelResponse) : Bool :=
  r.status == "success" && !(r.response.getD "").isEmpty

def successFilter (rs : List ModelResponse) : List ModelResponse := rs.filter keepPred

/-- `add_responses`: `self.responses = [r for r in responses if ...]` —
assignment, hence the previous engine state (second argument) is discarded. -/
def addResponses (new _st : List ModelResponse) : List ModelResponse := successFilter new

/-! ### SynthesisEngine._extract_key_phrases / extract_themes -/

/-- One iteration of the sentence loop of `_extract_key_phrases`: the inner
indicator loop `break`s at the first indicator present, and appends the
cleaned sentence only if it has 3–15 tokens. -/
def sentencePhrase (sentence : String) : Option String :=
  if ACTION_INDICATORS.any (fun ind => strContainsSub ind sentence) then
    let words := pySplit (cleanChars sentence)
    if 3 ≤ words.length && words.length ≤ 15 then some (joinSep " " words) else none
  else none

/-- `_extract_key_phrases`: sentences of the lowercased text, candidate
phrases, then `list(set(phrases))` (modelled as `dedup`). -/
def extractKeyPhrases (text : String) : List String :=
  ((splitSentences (strLower text)).filterMap sentencePhrase).dedup

/-- `response_phrases`: dict model → phrases, built over `self.responses`. -/
def responsePhrases (st : List ModelResponse) : List (String × List String) :=
  st.foldl (fun acc r => upsert r.model (extractKeyPhrases (r.response.getD "")) acc) []

/-- The inner loop of `phrase_models` construction: append model `m` for
each of its phrases. -/
def innerFoldPM (m : String) (ps : List String) (acc : List (String × List String)) :
    List (String × List String) :=
  ps.foldl (fun a p => appendAt p m a) acc

/-- `phrase_models`: defaultdict phrase → supporting models. -/
def phraseModels (rp : List (String × List String)) : List (String × List String) :=
  rp.foldl (fun acc e => innerFoldPM e.1 e.2 acc) []

/-- `_find_evidence`: per supporting model, the first sentence whose token
overlap with the phrase exceeds 0.3 and whose length is < 300.  The ratio
of the two counts is written `mkRat`, which equals cast-and-divide
(`Rat.mkRat_eq_div`) but also evaluates by kernel reduction. -/
def findEvidence (st : List ModelResponse) (phrase : String) (models : List String) :
    List String :=
  let phraseWords := (pySplit (strLower phrase)).dedup
  st.filterMap fun r =>
    if r.model ∈ models then
      ((splitSentences (r.response.getD "")).find? fun sent =>
          let sentWords := (pySplit (strLower sent)).dedup
          let overlap : ℚ :=
            mkRat (phraseWords.filter fun w => sentWords.contains w).length phraseWords.length
          decide (mkRat 3 10 < overlap) && decide (pyLen sent < 300)).map
        fun sent => "[" ++ r.model ++ "] " ++ pyStrip sent
    else none

/-- Theme construction for one `phrase_models` entry (the `len(models) >= 2`
filter); `confidence = len(models) / len(self.responses)` as `mkRat`. -/
def mkTheme (st : List ModelResponse) (e : String × List String) : Option ExtractedTheme :=
  if 2 ≤ e.2.length then
    some { theme := e.1, supporting_models := e.2,
           confidence := mkRat e.2.length st.length,
           evidence := (findEvidence st e.1 e.2).take 3 }
  else none

/-- Sort relation of `themes.sort(key=lambda t: -t.confidence)`. -/
def themeGe (a b : ExtractedTheme) : Prop := b.confidence ≤ a.confidence

instance : DecidableRel themeGe :=
  fun a b => inferInstanceAs (Decidable (b.confidence ≤ a.confidence))

instance : IsTotal ExtractedTheme themeGe := ⟨fun a b => le_total b.confidence a.confidence⟩

instance : IsTrans ExtractedTheme themeGe := ⟨fun _ _ _ h1 h2 => le_trans h2 h1⟩

/-- `extract_themes`. -/
def extractThemes (st : List ModelResponse) : List ExtractedTheme :=
  if st.isEmpty then []
  else
    (List.insertionSort themeGe
      ((phraseModels (responsePhrases st)).filterMap (mkTheme st))).take 10

/-! ### SynthesisEngine detect_conflicts -/

/-- Inner scan of `_extract_conflict_topic` over one text. -/
def topicFromText (text ind : String) : Option String :=
  ((splitSentences text).find? fun sent =>
      strContainsSub ind (strLower sent) && decide (pyLen sent < 200)).map
    fun sent => pySlice (pyStrip sent) 100

/-- `_extract_conflict_topic`: first matching sentence of either text. -/
def extractConflictTopic (t1 t2 ind : String) : Option String :=
  match topicFromText t1 ind with
  | some t => some t
  | none => topicFromText t2 ind

/-- `_extract_position`. -/
def extractPosition (text topic : String) : String :=
  let topicWords := ((pySplit (strLower topic)).take 5).dedup
  match (splitSentences text).find? (fun sent =>
      decide (2 ≤ (topicWords.filter fun w => (pySplit (strLower sent)).contains w).length)) with
  | some sent => pySlice (pyStrip sent) 150
  | none => pySlice text 150 ++ "..."

/-- `_find_conflicts_between`: the indicator loop `break`s after the first
indicator present in either response, producing at most one conflict. -/
def findConflictsBetween (r1 r2 : ModelResponse) : List DetectedConflict :=
  let t1 := r1.response.getD ""
  let t2 := r2.response.getD ""
  match CONFLICT_INDICATORS.find?
      (fun ind => strContainsSub ind (strLower t1) || strContainsSub ind (strLower t2)) with
  | none => []
  | some ind =>
    match extractConflictTopic t1 t2 ind with
    | none => []
    | some topic =>
      [{ topic := topic,
         positions := upsert r2.model (extractPosition t2 topic)
                        (upsert r1.model (extractPosition t1 topic) []),
         severity := "medium",
         resolution_hint := some "Consider domain context when choosing approach" }]

/-- The `for i, r1 ... for r2 in responses[i+1:]` pair enumeration. -/
def allPairs {α : Type} : List α → List (α × α)
  | [] => []
  | x :: xs => (xs.map fun y => (x, y)) ++ allPairs xs

/-- All conflicts in pairwise discovery order, before deduplication. -/
def rawConflicts (st : List ModelResponse) : List DetectedConflict :=
  ((allPairs st).map fun p => findConflictsBetween p.1 p.2).flatten

/-- Python's `sorted` comparison on strings (code-point lexicographic). -/
def stringLe (a b : String) : Prop := strLeL a.data b.data = true

instance : DecidableRel stringLe := fun a b => inferInstanceAs (Decidable (strLeL a.data b.data = true))

/-- `tuple(sorted(c.positions.keys()))` — the unordered pair of expert ids. -/
def conflictKey (c : DetectedConflict) : List String :=
  List.insertionSort stringLe (c.positions.map Prod.fst)

/-- The `seen` set loop of `_dedupe_conflicts`. -/
def dedupeConflictsGo (seen : List (List String)) :
    List DetectedConflict → List DetectedConflict
  | [] => []
  | c :: rest =>
    if conflictKey c ∈ seen then dedupeConflictsGo seen rest
    else c :: dedupeConflictsGo (conflictKey c :: seen) rest

def dedupeConflicts (cs : List DetectedConflict) : List DetectedConflict :=
  dedupeConflictsGo [] cs

/-- `detect_conflicts`. -/
def detectConflicts (st : List ModelResponse) : List DetectedConflict :=
  if st.length < 2 then []
  else (dedupeConflicts (rawConflicts st)).take 5

/-! ### SynthesisEngine extract_actions -/

/-- `_determine_priority`. -/
def determinePriority (text : String) : String :=
  if PRIORITY_HIGH.any (fun w => strContainsSub w text) then "high"
  else if PRIORITY_MEDIUM.any (fun w => strContainsSub w text) then "medium"
  else "low"

/-- One sentence of `_extract_actions_from_response`: the indicator loop
appends (and `break`s) at the first indicator present when the sentence is
longer than 20 characters. -/
def sentenceAction (r : ModelResponse) (sent : String) : Option ActionItem :=
  let sl := strLower sent
  if ACTION_INDICATORS.any (fun ind => strContainsSub ind sl) && decide (20 < pyLen sent) then
    some { action := pySlice (pyStrip sent) 200, priority := determinePriority sl,
           source_models := [r.model], domain := r.domain,
           rationale := "Recommended by " ++ r.model }
  else none

/-- `_extract_actions_from_response`. -/
def extractActionsFromResponse (r : ModelResponse) : List ActionItem :=
  (splitSentences (r.response.getD "")).filterMap (sentenceAction r)

/-- `priority_order.get(p, 3)`. -/
def priorityRank (p : String) : Nat :=
  if p == "high" then 0 else if p == "medium" then 1 else if p == "low" then 2 else 3

/-- Grouping of `_dedupe_actions`: key is the first 50 lowercased characters. -/
def groupActions (as : List ActionItem) : List (String × List ActionItem) :=
  as.foldl (fun acc a => appendAt (strLower (pySlice a.action 50)) a acc) []

/-- Python `min(group, key=rank)` keeps the first minimum. -/
def bestAction (a : ActionItem) (rest : List ActionItem) : ActionItem :=
  rest.foldl (fun b x => if priorityRank x.priority < priorityRank b.priority then x else b) a

/-- Merge one group: best-priority representative, union of source models
(`list(set(...))` modelled as `dedup`). -/
def mergeGroup : List ActionItem → Option ActionItem
  | [] => none
  | a :: rest =>
    let best := bestAction a rest
    let allModels := ((a :: rest).flatMap ActionItem.source_models).dedup
    some { action := best.action, priority := best.priority, source_models := allModels,
           domain := best.domain,
           rationale := "Recommended by " ++ toString allModels.length ++ " model(s)" }

/-- `_dedupe_actions`. -/
def dedupeActions (as : List ActionItem) : List ActionItem :=
  (groupActions as).filterMap fun g => mergeGroup g.2

/-- Sort relation of `unique_actions.sort(key=priority rank)`. -/
def actionLe (a b : ActionItem) : Prop := priorityRank a.priority ≤ priorityRank b.priority

instance : DecidableRel actionLe :=
  fun a b => inferInstanceAs (Decidable (priorityRank a.priority ≤ priorityRank b.priority))

instance : IsTotal ActionItem actionLe :=
  ⟨fun a b => Nat.le_total (priorityRank a.priority) (priorityRank b.priority)⟩

instance : IsTrans ActionItem actionLe := ⟨fun _ _ _ h1 h2 => Nat.le_trans h1 h2⟩

/-- `extract_actions`. -/
def extractActions (st : List ModelResponse) : List ActionItem :=
  (List.insertionSort actionLe
    (dedupeActions (st.map extractActionsFromResponse).flatten)).take 10

/-! ### SynthesisEngine calculate_consensus / synthesize -/

/-- `calculate_consensus`. -/
def calculateConsensus (st : List ModelResponse) : ℚ :=
  if st.length < 2 then 1
  else
    let themes := extractThemes st
    let conflicts := detectConflicts st
    let themeScore := ((themes.map ExtractedTheme.confidence).sum) / ((max themes.length 1 : Nat) : ℚ)
    let conflictPenalty := (conflicts.length : ℚ) * (1 / 10)
    max 0 (min 1 (themeScore - conflictPenalty))

/-- `Counter(r.domain for r in self.responses)` in first-encounter order. -/
def domainCoverage (st : List ModelResponse) : List (String × Nat) :=
  st.foldl (fun acc r => bumpCount r.domain acc) []

/-- `synthesize`.  Note `total_models` is computed from the already-filtered
`self.responses` exactly as in the source:
`len(self.responses) + sum(1 for r in self.responses if r.status != "success")`. -/
def synthesize (question : String) (st : List ModelResponse) : SynthesisResult :=
  { question := question,
    themes := extractThemes st,
    conflicts := detectConflicts st,
    action_items := extractActions st,
    domain_coverage := domainCoverage st,
    consensus_score := calculateConsensus st,
    total_models := st.length + (st.filter fun r => !(r.status == "success")).length,
    successful_models := st.length }

/-! ### Dispatcher: query_model and consult -/

/-- `ExpertConfig` entry of the `MODELS` registry (the dict key carried as `name`).
`timeout` is in seconds, exactly as stored in the source and passed to
`aiohttp.ClientTimeout(total=...)`. -/
structure ExpertCfg where
  name : String
  domain : String
  weight : ℚ
  timeout : Nat
  description : String
deriving Repr, DecidableEq

/-- Body of a 200 response as seen by `resp.json()` / `data.get`. -/
inductive Payload
  /-- Valid JSON object; the optional `"response"` field. -/
  | obj (response? : Option String)
  /-- JSON content type but the body is not valid JSON: `resp.json()` raises
  `json.JSONDecodeError` (a `ValueError`, not an `aiohttp.ClientError`). -/
  | malformed
  /-- Non-JSON content type: `resp.json()` raises `aiohttp.ContentTypeError`,
  which is an `aiohttp.ClientError` (caught); `msg` is `str(e)`. -/
  | notJson (msg : String)
deriving Repr, DecidableEq

/-- Abstract outcome of the single transport call an expert query makes. -/
inductive Outcome
  /-- `asyncio.TimeoutError`: the call exceeded `config["timeout"]` seconds. -/
  | timeout
  /-- `aiohttp.ClientError` (connection refused, etc.); `msg` is `str(e)`. -/
  | connError (msg : String)
  /-- An HTTP response with the given status, raw text body, and parsed payload. -/
  | http (status : Nat) (body : String) (payload : Payload)
deriving Repr, DecidableEq

/-- Python exceptions that escape `query_model`'s `except` clauses. -/
inductive PyExn
  | jsonDecodeError
deriving Repr, DecidableEq

/-- `query_model`: maps the outcome of its single transport call to a
`ModelResponse`, or raises.  `elapsedMs` is the measured wall-clock
`int((time.time() - start_time) * 1000)`. -/
def queryModel (cfg : ExpertCfg) (elapsedMs : Nat) : Outcome → Except PyExn ModelResponse
  | Outcome.timeout =>
    Except.ok { model := cfg.name, domain := cfg.domain, response := none,
                weight := cfg.weight, duration_ms := elapsedMs, status := "timeout",
                error := some ("Timeout after " ++ toString cfg.timeout ++ "s") }
  | Outcome.connError msg =>
    Except.ok { model := cfg.name, domain := cfg.domain, response := none,
                weight := cfg.weight, duration_ms := elapsedMs, status := "error",
                error := some msg }
  | Outcome.http status body payload =>
    if status ≠ 200 then
      Except.ok { model := cfg.name, domain := cfg.domain, response := none,
                  weight := cfg.weight, duration_ms := elapsedMs, status := "error",
                  error := some ("HTTP " ++ toString status ++ ": " ++ pySlice body 100) }
    else
      match payload with
      | Payload.obj r =>
        Except.ok { model := cfg.name, domain := cfg.domain, response := some (r.getD ""),
                    weight := cfg.weight, duration_ms := elapsedMs, status := "success",
                    error := none }
      | Payload.malformed => Except.error PyExn.jsonDecodeError
      | Payload.notJson msg =>
        Except.ok { model := cfg.name, domain := cfg.domain, response := none,
                    weight := cfg.weight, duration_ms := elapsedMs, status := "error",
                    error := some msg }

/-- One `query_model` per selected expert; `await` re-raises the first
per-task exception, which `consult` does not catch. -/
def gather (experts : List ExpertCfg) (env : String → Outcome) (elapsed : String → Nat) :
    Except PyExn (List ModelResponse) :=
  experts.mapM fun e => queryModel e (elapsed e.name) (env e.name)

/-- The heap tuple order `(-result.weight, result.model)` as a Boolean test. -/
def keyLeB (a b : ModelResponse) : Bool :=
  decide (b.weight < a.weight) || (decide (a.weight = b.weight) && strLeL a.model.data b.model.data)

/-- The heap tuple order `(-result.weight, result.model)` (non-strict):
descending weight, ties broken by ascending model id. -/
def keyLe (a b : ModelResponse) : Prop :=
  b.weight < a.weight ∨ (a.weight = b.weight ∧ strLeL a.model.data b.model.data = true)

/-- Strictly-descending-weight / strictly-ascending-id (lexicographic) order. -/
def keyLt (a b : ModelResponse) : Prop :=
  b.weight < a.weight ∨ (a.weight = b.weight ∧ strLtL a.model.data b.model.data = true)

/-- Extract a minimal element (under the heap tuple order) and the rest:
one `heappop` on the heap viewed as a multiset. -/
def selectMin : ModelResponse → List ModelResponse → ModelResponse × List ModelResponse
  | x, [] => (x, [])
  | x, y :: ys =>
    if keyLeB x y then
      let p := selectMin x ys
      (p.1, y :: p.2)
    else
      let p := selectMin y ys
      (p.1, x :: p.2)

/-- The `while results_heap: heappop` loop, fuelled by the heap size. -/
def heapExtractAux : Nat → List ModelResponse → List ModelResponse
  | _, [] => []
  | 0, _ :: _ => []
  | n + 1, x :: xs =>
    let p := selectMin x xs
    p.1 :: heapExtractAux n p.2

/-- Push all results, then pop all: the post-processing of `consult`. -/
def heapExtract (l : List ModelResponse) : List ModelResponse :=
  heapExtractAux l.length l

/-- `consult`: gathers one result per expert and extracts them from the heap.
`completionOrder` stands for the unspecified `asyncio.as_completed` arrival
order in which results are pushed; theorems constrain it to a permutation. -/
def consult (experts : List ExpertCfg) (env : String → Outcome) (elapsed : String → Nat)
    (completionOrder : List ModelResponse → List ModelResponse) :
    Except PyExn (List ModelResponse) :=
  match gather experts env elapsed with
  | Except.error e => Except.error e
  | Except.ok rs => Except.ok (heapExtract (completionOrder rs))

/-! ### Concrete fixtures used by closed theorems and witnesses -/

/-- One entry of the `MODELS` registry (weight 0.10 = `mkRat 1 10`). -/
def cfgKG : ExpertCfg :=
  ⟨"kg-traversal-expert", "technical", mkRat 1 10, 120, "Knowledge graphs, SPARQL, Cypher"⟩

/-- One entry of the `MODELS` registry (weight 0.05, timeout 60 s). -/
def cfgE2S : ExpertCfg := ⟨"english-to-spanish", "utility", mkRat 1 20, 60, "Translation"⟩

def fxTimeout : ModelResponse :=
  ⟨"m1", "technical", none, mkRat 3 20, 120000, "timeout", some "Timeout after 120s"⟩

def fxError : ModelResponse :=
  ⟨"m2", "technical", none, mkRat 3 20, 30, "error", some "HTTP 500: boom"⟩

def fxSuccess : ModelResponse :=
  ⟨"m3", "wealth", some "You should start with a plan", mkRat 1 4, 2000, "success", none⟩

def fxSolo : ModelResponse :=
  ⟨"solo-expert", "technical", some "You should definitely adopt this approach now",
   mkRat 1 4, 1000, "success", none⟩

def fxA : ModelResponse :=
  ⟨"a-expert", "technical", some "You should start with a wal", mkRat 3 20, 1200, "success", none⟩

def fxB : ModelResponse :=
  ⟨"b-expert", "wealth", some "You should start with a wal", mkRat 3 20, 900, "success", none⟩

/-- The theme that `extract_themes` produces for `[fxA, fxB]`. -/
def fxTheme : ExtractedTheme :=
  { theme := "you should start with a wal",
    supporting_models := ["a-expert", "b-expert"],
    confidence := 1,
    evidence := ["[a-expert] You should start with a wal", "[b-expert] You should start with a wal"] }

def fxC : ModelResponse :=
  ⟨"c-expert", "technical", some "I disagree with that plan", mkRat 1 4, 100, "success", none⟩

def fxD : ModelResponse :=
  ⟨"d-expert", "tax", some "Use a simple log", mkRat 1 10, 200, "success", none⟩

def cw1 : ExpertCfg := ⟨"a", "technical", mkRat 1 4, 180, "d1"⟩

def cw2 : ExpertCfg := ⟨"b", "technical", mkRat 3 20, 120, "d2"⟩

def cw3 : ExpertCfg := ⟨"c", "wealth", mkRat 3 20, 90, "d3"⟩

/-- The gathered results of a dispatch of `[cw1, cw2, cw3]` where every call times out. -/
def cwResults : List ModelResponse :=
  [⟨"a", "technical", none, mkRat 1 4, 3, "timeout", some "Timeout after 180s"⟩,
   ⟨"b", "technical", none, mkRat 3 20, 3, "timeout", some "Timeout after 120s"⟩,
   ⟨"c", "wealth", none, mkRat 3 20, 3, "timeout", some "Timeout after 90s"⟩]

/-! ## Theorems -/

/-! ### The code-point lexicographic order -/

theorem strLeL_refl (s : List Char) : strLeL s s = true := by
  induction s with
  | nil => rfl
  | cons a as ih => simp [strLeL, Nat.lt_irrefl, ih]

theorem strLeL_total (s t : List Char) : strLeL s t = true ∨ strLeL t s = true := by
  induction s generalizing t with
  | nil => exact Or.inl rfl
  | cons a as ih =>
    cases t with
    | nil => exact Or.inr rfl
    | cons b bs =>
      rcases Nat.lt_trichotomy a.toNat b.toNat with h | h | h
      · left; simp [strLeL, h]
      · have h2 : ¬ a.toNat < b.toNat := by omega
        have h3 : ¬ b.toNat < a.toNat := by omega
        rcases ih bs with hh | hh
        · left; simp [strLeL, h2, h3, hh]
        · right; simp [strLeL, h2, h3, hh]
      · right; simp [strLeL, h]

theorem strLeL_trans {s t u : List Char} (h1 : strLeL s t = true) (h2 : strLeL t u = true) :
    strLeL s u = true := by
  induction s generalizing t u with
  | nil => rfl
  | cons a as ih =>
    cases t with
    | nil => simp [strLeL] at h1
    | cons b bs =>
      cases u with
      | nil => simp [strLeL] at h2
      | cons c cs =>
        rcases Nat.lt_trichotomy a.toNat b.toNat with hab | hab | hab
        · rcases Nat.lt_trichotomy b.toNat c.toNat with hbc | hbc | hbc
          · simp [strLeL, Nat.lt_trans hab hbc]
          · simp [strLeL, hbc ▸ hab]
          · simp [strLeL, Nat.lt_asymm hbc, hbc] at h2
        · rcases Nat.lt_trichotomy b.toNat c.toNat with hbc | hbc | hbc
          · simp [strLeL, hab ▸ hbc]
          · simp only [strLeL, if_neg (by omega : ¬ a.toNat < b.toNat),
              if_neg (by omega : ¬ b.toNat < a.toNat)] at h1
            simp only [strLeL, if_neg (by omega : ¬ b.toNat < c.toNat),
              if_neg (by omega : ¬ c.toNat < b.toNat)] at h2
            simp only [strLeL, if_neg (by omega : ¬ a.toNat < c.toNat),
              if_neg (by omega : ¬ c.toNat < a.toNat)]
            exact ih h1 h2
          · simp [strLeL, Nat.lt_asymm hbc, hbc] at h2
        · simp [strLeL, Nat.lt_asymm hab, hab] at h1

theorem strLtL_asymm {s t : List Char} (h1 : strLtL s t = true) (h2 : strLtL t s = true) :
    False := by
  induction s generalizing t with
  | nil =>
    cases t with
    | nil => simp [strLtL] at h1
    | cons b bs => simp [strLtL] at h2
  | cons a as ih =>
    cases t with
    | nil => simp [strLtL] at h1
    | cons b bs =>
      rcases Nat.lt_trichotomy a.toNat b.toNat with hab | hab | hab
      · simp [strLtL, Nat.lt_asymm hab, hab] at h2
      · simp only [strLtL, if_neg (by omega : ¬ a.toNat < b.toNat),
          if_neg (by omega : ¬ b.toNat < a.toNat)] at h1
        simp only [strLtL, if_neg (by omega : ¬ b.toNat < a.toNat),
          if_neg (by omega : ¬ a.toNat < b.toNat)] at h2
        exact ih h1 h2
      · simp [strLtL, Nat.lt_asymm hab, hab] at h1

theorem charEq_of_toNat {a b : Char} (h : a.toNat = b.toNat) : a = b :=
  Char.ext (UInt32.toNat.inj h)

theorem strLeL_ne_lt {s t : List Char} (h : strLeL s t = true) (hne : s ≠ t) :
    strLtL s t = true := by
  induction s generalizing t with
  | nil =>
    cases t with
    | nil => exact absurd rfl hne
    | cons b bs => rfl
  | cons a as ih =>
    cases t with
    | nil => simp [strLeL] at h
    | cons b bs =>
      rcases Nat.lt_trichotomy a.toNat b.toNat with hab | hab | hab
      · simp [strLtL, hab]
      · have hchar : a = b := charEq_of_toNat hab
        have hne' : as ≠ bs := fun hh => hne (by rw [hchar, hh])
        simp only [strLeL, if_neg (by omega : ¬ a.toNat < b.toNat),
          if_neg (by omega : ¬ b.toNat < a.toNat)] at h
        simp only [strLtL, if_neg (by omega : ¬ a.toNat < b.toNat),
          if_neg (by omega : ¬ b.toNat < a.toNat)]
        exact ih h hne'
      · simp [strLeL, Nat.lt_asymm hab, hab] at h

theorem stringData_inj {s t : String} (h : s.data = t.data) : s = t := by
  cases s; cases t; simp only at h; rw [h]

/-! ### The heap key order on ModelResponse -/

theorem keyLe_iff (a b : ModelResponse) : keyLeB a b = true ↔ keyLe a b := by
  simp [keyLeB, keyLe, Bool.or_eq_true, Bool.and_eq_true, decide_eq_true_iff]

theorem keyLe_refl (a : ModelResponse) : keyLe a a :=
  Or.inr ⟨rfl, strLeL_refl _⟩

theorem keyLe_total (a b : ModelResponse) : keyLe a b ∨ keyLe b a := by
  rcases lt_trichotomy a.weight b.weight with h | h | h
  · exact Or.inr (Or.inl h)
  · rcases strLeL_total a.model.data b.model.data with hh | hh
    · exact Or.inl (Or.inr ⟨h, hh⟩)
    · exact Or.inr (Or.inr ⟨h.symm, hh⟩)
  · exact Or.inl (Or.inl h)

theorem keyLe_trans {a b c : ModelResponse} (h1 : keyLe a b) (h2 : keyLe b c) : keyLe a c := by
  rcases h1 with h1 | ⟨he1, hs1⟩
  · rcases h2 with h2 | ⟨he2, _⟩
    · exact Or.inl (lt_trans h2 h1)
    · exact Or.inl (he2 ▸ h1)
  · rcases h2 with h2 | ⟨he2, hs2⟩
    · exact Or.inl (he1 ▸ h2)
    · exact Or.inr ⟨he1.trans he2, strLeL_trans hs1 hs2⟩

theorem keyLt_asymm {a b : ModelResponse} (h1 : keyLt a b) (h2 : keyLt b a) : False := by
  rcases h1 with h1 | ⟨he1, hs1⟩ <;> rcases h2 with h2 | ⟨he2, hs2⟩
  · exact absurd h1 (lt_asymm h2)
  · exact absurd h1 (he2 ▸ lt_irrefl _)
  · exact absurd h2 (he1 ▸ lt_irrefl _)
  · exact strLtL_asymm hs1 hs2

instance : IsAntisymm ModelResponse keyLt :=
  ⟨fun _ _ h1 h2 => (keyLt_asymm h1 h2).elim⟩

theorem keyLe_ne_model_lt {a b : ModelResponse} (h : keyLe a b) (hne : a.model ≠ b.model) :
    keyLt a b := by
  rcases h with h | ⟨he, hs⟩
  · exact Or.inl h
  · exact Or.inr ⟨he, strLeL_ne_lt hs (fun hd => hne (stringData_inj hd))⟩

/-! ### selectMin / heapExtract -/

theorem selectMin_cons_pos {x y : ModelResponse} {ys : List ModelResponse}
    (h : keyLeB x y = true) :
    selectMin x (y :: ys) = ((selectMin x ys).1, y :: (selectMin x ys).2) := by
  simp [selectMin, h]

theorem selectMin_cons_neg {x y : ModelResponse} {ys : List ModelResponse}
    (h : keyLeB x y = false) :
    selectMin x (y :: ys) = ((selectMin y ys).1, x :: (selectMin y ys).2) := by
  simp [selectMin, h]

theorem selectMin_perm (l : List ModelResponse) (x : ModelResponse) :
    ((selectMin x l).1 :: (selectMin x l).2).Perm (x :: l) := by
  induction l generalizing x with
  | nil => simp [selectMin]
  | cons y ys ih =>
    cases h : keyLeB x y with
    | true =>
      rw [selectMin_cons_pos h]
      exact (List.Perm.swap _ _ _).trans (((ih x).cons y).trans (List.Perm.swap _ _ _))
    | false =>
      rw [selectMin_cons_neg h]
      exact (List.Perm.swap _ _ _).trans ((ih y).cons x)

theorem selectMin_min (l : List ModelResponse) (x : ModelResponse) :
    ∀ z, (z = x ∨ z ∈ l) → keyLe (selectMin x l).1 z := by
  induction l generalizing x with
  | nil =>
    intro z hz
    rcases hz with rfl | hz
    · exact keyLe_refl _
    · simp at hz
  | cons y ys ih =>
    intro z hz
    cases h : keyLeB x y with
    | true =>
      have hxy : keyLe x y := (keyLe_iff x y).mp h
      rw [selectMin_cons_pos h]
      rcases hz with hz | hz
      · rw [hz]; exact ih x x (Or.inl rfl)
      · rcases List.mem_cons.mp hz with hz2 | hz2
        · rw [hz2]; exact keyLe_trans (ih x x (Or.inl rfl)) hxy
        · exact ih x z (Or.inr hz2)
    | false =>
      have hyx : keyLe y x := by
        rcases keyLe_total x y with hh | hh
        · exact absurd ((keyLe_iff x y).mpr hh) (by simp [h])
        · exact hh
      rw [selectMin_cons_neg h]
      rcases hz with hz | hz
      · rw [hz]; exact keyLe_trans (ih y y (Or.inl rfl)) hyx
      · rcases List.mem_cons.mp hz with hz2 | hz2
        · rw [hz2]; exact ih y y (Or.inl rfl)
        · exact ih y z (Or.inr hz2)

theorem selectMin_length (l : List ModelResponse) (x : ModelResponse) :
    (selectMin x l).2.length = l.length := by
  induction l generalizing x with
  | nil => rfl
  | cons y ys ih =>
    cases h : keyLeB x y with
    | true => rw [selectMin_cons_pos h]; simp [ih]
    | false => rw [selectMin_cons_neg h]; simp [ih]

theorem heapExtractAux_spec :
    ∀ (n : Nat) (l : List ModelResponse), l.length ≤ n →
      (heapExtractAux n l).Perm l ∧ (heapExtractAux n l).Pairwise keyLe := by
  intro n
  induction n with
  | zero =>
    intro l h
    cases l with
    | nil => simp [heapExtractAux]
    | cons x xs => simp at h
  | succ n ih =>
    intro l h
    cases l with
    | nil => simp [heapExtractAux]
    | cons x xs =>
      have hlen : (selectMin x xs).2.length ≤ n := by
        rw [selectMin_length]
        simp only [List.length_cons] at h
        omega
      obtain ⟨hperm, hsort⟩ := ih _ hlen
      refine ⟨?_, ?_⟩
      · exact (hperm.cons _).trans (selectMin_perm xs x)
      · refine List.Pairwise.cons ?_ hsort
        intro z hz
        have hz2 : z ∈ (selectMin x xs).1 :: (selectMin x xs).2 :=
          List.mem_cons_of_mem _ (hperm.mem_iff.mp hz)
        have hz3 : z = x ∨ z ∈ xs := List.mem_cons.mp ((selectMin_perm xs x).mem_iff.mp hz2)
        exact selectMin_min xs x z hz3

theorem heapExtract_perm (l : List ModelResponse) : (heapExtract l).Perm l :=
  (heapExtractAux_spec l.length l le_rfl).1

theorem heapExtract_pairwise (l : List ModelResponse) : (heapExtract l).Pairwise keyLe :=
  (heapExtractAux_spec l.length l le_rfl).2

theorem heapExtract_strict {l : List ModelResponse}
    (hd : (l.map ModelResponse.model).Nodup) : (heapExtract l).Pairwise keyLt := by
  have h1 : (heapExtract l).Pairwise keyLe := heapExtract_pairwise l
  have h2 : ((heapExtract l).map ModelResponse.model).Nodup :=
    (((heapExtract_perm l).map ModelResponse.model).nodup_iff).mpr hd
  have h3 : (heapExtract l).Pairwise (fun a b => a.model ≠ b.model) :=
    List.pairwise_map.mp h2
  exact (h1.and h3).imp fun h => keyLe_ne_model_lt h.1 h.2

theorem heapExtract_perm_inv {l₁ l₂ : List ModelResponse} (hp : l₁.Perm l₂)
    (hd : (l₁.map ModelResponse.model).Nodup) : heapExtract l₁ = heapExtract l₂ := by
  have hd₂ : (l₂.map ModelResponse.model).Nodup := ((hp.map ModelResponse.model).nodup_iff).mp hd
  exact List.eq_of_perm_of_sorted
    (((heapExtract_perm l₁).trans hp).trans (heapExtract_perm l₂).symm)
    (heapExtract_strict hd) (heapExtract_strict hd₂)

/-- C4: for a fixed gathered result set, `consult` returns the results sorted
strictly by descending weight with ties broken by ascending model id
(lexicographic on code points), the output is a permutation of the gathered
set, and the output is identical for any two completion (heap push) orders. -/
theorem c4_deterministic_ordering (experts : List ExpertCfg) (env : String → Outcome)
    (elapsed : String → Nat) (order1 order2 : List ModelResponse → List ModelResponse)
    (rs : List ModelResponse) (hg : gather experts env elapsed = Except.ok rs)
    (h1 : (order1 rs).Perm rs) (h2 : (order2 rs).Perm rs)
    (hd : (rs.map ModelResponse.model).Nodup) :
    consult experts env elapsed order1 = Except.ok (heapExtract rs) ∧
    consult experts env elapsed order1 = consult experts env elapsed order2 ∧
    (heapExtract rs).Pairwise keyLt ∧ (heapExtract rs).Perm rs := by
  have hd1 : ((order1 rs).map ModelResponse.model).Nodup :=
    ((h1.map ModelResponse.model).nodup_iff).mpr hd
  have hd2 : ((order2 rs).map ModelResponse.model).Nodup :=
    ((h2.map ModelResponse.model).nodup_iff).mpr hd
  have e1 : heapExtract (order1 rs) = heapExtract rs := heapExtract_perm_inv h1 hd1
  have e2 : heapExtract (order2 rs) = heapExtract rs := heapExtract_perm_inv h2 hd2
  refine ⟨?_, ?_, heapExtract_strict hd, heapExtract_perm rs⟩
  · simp [consult, hg, e1]
  · simp [consult, hg, e1, e2]

/-- C4 witness: a three-expert dispatch with a weight tie, delivered in
submission order and in reversed order, yields the same sorted output. -/
theorem c4_witness :
    consult [cw1, cw2, cw3] (fun _ => Outcome.timeout) (fun _ => 3) id =
      Except.ok (heapExtract cwResults) ∧
    consult [cw1, cw2, cw3] (fun _ => Outcome.timeout) (fun _ => 3) id =
      consult [cw1, cw2, cw3] (fun _ => Outcome.timeout) (fun _ => 3) List.reverse ∧
    (heapExtract cwResults).Pairwise keyLt ∧ (heapExtract cwResults).Perm cwResults :=
  c4_deterministic_ordering [cw1, cw2, cw3] (fun _ => Outcome.timeout) (fun _ => 3)
    id List.reverse cwResults rfl (List.Perm.refl cwResults) cwResults.reverse_perm (by decide)

/-! ### Conflict deduplication and pair enumeration -/

theorem dedupeConflictsGo_sublist :
    ∀ (cs : List DetectedConflict) (seen : List (List String)),
      (dedupeConflictsGo seen cs).Sublist cs := by
  intro cs
  induction cs with
  | nil => intro seen; exact List.Sublist.refl []
  | cons c rest ih =>
    intro seen
    by_cases h : conflictKey c ∈ seen
    · simp only [dedupeConflictsGo, if_pos h]
      exact (ih seen).cons c
    · simp only [dedupeConflictsGo, if_neg h]
      exact (ih (conflictKey c :: seen)).cons₂ c

theorem dedupeConflictsGo_spec :
    ∀ (cs : List DetectedConflict) (seen : List (List String)),
      ((dedupeConflictsGo seen cs).Pairwise fun c1 c2 => conflictKey c1 ≠ conflictKey c2) ∧
      ∀ c ∈ dedupeConflictsGo seen cs, conflictKey c ∉ seen := by
  intro cs
  induction cs with
  | nil => intro seen; exact ⟨List.Pairwise.nil, by simp [dedupeConflictsGo]⟩
  | cons c rest ih =>
    intro seen
    by_cases h : conflictKey c ∈ seen
    · simp only [dedupeConflictsGo, if_pos h]
      exact ih seen
    · simp only [dedupeConflictsGo, if_neg h]
      obtain ⟨hp, hm⟩ := ih (conflictKey c :: seen)
      refine ⟨List.Pairwise.cons ?_ hp, ?_⟩
      · intro d hd
        have := hm d hd
        simp only [List.mem_cons] at this
        exact fun he => this (Or.inl he.symm)
      · intro d hd
        rcases List.mem_cons.mp hd with hd2 | hd2
        · rw [hd2]; exact h
        · have := hm d hd2
          simp only [List.mem_cons] at this
          exact fun he => this (Or.inr he)

theorem allPairs_pairwise {α : Type} {R : α → α → Prop} :
    ∀ (l : List α), l.Pairwise R → ∀ p ∈ allPairs l, R p.1 p.2 := by
  intro l
  induction l with
  | nil => intro _ p hp; simp [allPairs] at hp
  | cons x xs ih =>
    intro hl p hp
    obtain ⟨hhead, htail⟩ := List.pairwise_cons.mp hl
    simp only [allPairs, List.mem_append, List.mem_map] at hp
    rcases hp with ⟨y, hy, hpy⟩ | hp
    · rw [← hpy]; exact hhead y hy
    · exact ih htail p hp

theorem findConflictsBetween_positions {r1 r2 : ModelResponse} {c : DetectedConflict}
    (hne : r1.model ≠ r2.model) (hc : c ∈ findConflictsBetween r1 r2) :
    c.positions.length = 2 := by
  simp only [findConflictsBetween] at hc
  split at hc
  · simp at hc
  · split at hc
    · simp at hc
    · simp only [List.mem_singleton] at hc
      rw [hc]
      simp [upsert, hne]

theorem detectConflicts_mem_raw {st : List ModelResponse} {c : DetectedConflict}
    (hc : c ∈ detectConflicts st) : ∃ p ∈ allPairs st, c ∈ findConflictsBetween p.1 p.2 := by
  simp only [detectConflicts] at hc
  split at hc
  · simp at hc
  · have h1 : c ∈ dedupeConflicts (rawConflicts st) :=
      (List.take_sublist 5 _).mem hc
    have h2 : c ∈ rawConflicts st := (dedupeConflictsGo_sublist _ []).mem h1
    simp only [rawConflicts, List.mem_flatten, List.mem_map] at h2
    obtain ⟨l, ⟨p, hp, hl⟩, hcl⟩ := h2
    exact ⟨p, hp, by rw [hl]; exact hcl⟩

/-- C7: among the conflicts `detect_conflicts` emits, no two share the same
unordered pair of expert ids; when model ids are pairwise distinct every
conflict's `positions` dict has exactly 2 keys; at most 5 conflicts are
emitted, and they are a sublist of the raw pairwise discovery sequence
(discovery order). -/
theorem c7_conflict_invariants (rs : List ModelResponse)
    (hd : ((successFilter rs).map ModelResponse.model).Nodup) :
    ((detectConflicts (successFilter rs)).Pairwise
        fun c1 c2 => conflictKey c1 ≠ conflictKey c2) ∧
    (∀ c ∈ detectConflicts (successFilter rs), c.positions.length = 2) ∧
    (detectConflicts (successFilter rs)).length ≤ 5 ∧
    (detectConflicts (successFilter rs)).Sublist (rawConflicts (successFilter rs)) := by
  have hmodels : (successFilter rs).Pairwise fun a b => a.model ≠ b.model :=
    List.pairwise_map.mp hd
  refine ⟨?_, ?_, ?_, ?_⟩
  · simp only [detectConflicts]
    split
    · exact List.Pairwise.nil
    · exact List.Pairwise.sublist (List.take_sublist 5 _) (dedupeConflictsGo_spec _ []).1
  · intro c hc
    obtain ⟨p, hp, hcp⟩ := detectConflicts_mem_raw hc
    exact findConflictsBetween_positions (allPairs_pairwise _ hmodels p hp) hcp
  · simp only [detectConflicts]
    split
    · simp
    · exact List.length_take_le 5 _
  · simp only [detectConflicts]
    split
    · exact List.nil_sublist _
    · exact (List.take_sublist 5 _).trans (dedupeConflictsGo_sublist _ [])

/-- C7 witness: two distinct successful experts whose first response contains
the indicator "disagree" produce conflicts satisfying all the invariants. -/
theorem c7_witness :
    ((detectConflicts (successFilter [fxC, fxD])).Pairwise
        fun c1 c2 => conflictKey c1 ≠ conflictKey c2) ∧
    (∀ c ∈ detectConflicts (successFilter [fxC, fxD]), c.positions.length = 2) ∧
    (detectConflicts (successFilter [fxC, fxD])).length ≤ 5 ∧
    (detectConflicts (successFilter [fxC, fxD])).Sublist (rawConflicts (successFilter [fxC, fxD])) :=
  c7_conflict_invariants [fxC, fxD] (by decide)

/-! ### C1, C2, C8, C10 -/

/-- C1 (refuted; code bug): on a 200 response whose body is not valid JSON,
`resp.json()` raises `json.JSONDecodeError`, which is neither
`asyncio.TimeoutError` nor `aiohttp.ClientError`, so the exception escapes
`query_model` and `consult` instead of becoming a `status="error"` result:
the dispatcher is not total on malformed payloads. -/
theorem c1_malformed_payload_raises :
    consult [cfgKG] (fun _ => Outcome.http 200 "not json" Payload.malformed)
      (fun _ => 500) id = Except.error PyExn.jsonDecodeError := rfl

/-- C2 (refuted; code bug): `synthesize` computes `total_models` over
`self.responses`, which `add_responses` has already filtered down to the
successful subset, so the `sum(... if r.status != "success")` term is always
0.  For 1 timeout + 1 error + 1 success the report says `total_models = 1`,
not 3 as the claim requires. -/
theorem c2_total_models_drops_failures :
    (synthesize "q" (addResponses [fxTimeout, fxError, fxSuccess] [])).total_models = 1 ∧
    (synthesize "q" (addResponses [fxTimeout, fxError, fxSuccess] [])).successful_models = 1 ∧
    (synthesize "q" (addResponses [fxTimeout, fxError, fxSuccess] [])).total_models ≠ 3 :=
  ⟨rfl, rfl, by decide⟩

/-- C8 counterexample: the timeout error string reports the budget in
seconds with an "s" suffix (`config["timeout"]` is stored in seconds), not
"Timeout after <timeoutMs>ms" as the claim states: for a 60-second budget
the code yields "Timeout after 60s", not "Timeout after 60000ms". -/
theorem c8_counterexample_units :
    queryModel cfgE2S 60000 Outcome.timeout =
      Except.ok { model := "english-to-spanish", domain := "utility", response := none,
                  weight := mkRat 1 20, duration_ms := 60000, status := "timeout",
                  error := some "Timeout after 60s" } ∧
    ("Timeout after 60s" : String) ≠ "Timeout after 60000ms" :=
  ⟨rfl, by decide⟩

/-- C8 (amended): a call whose outcome is a timeout yields `status="timeout"`
with `error = "Timeout after <timeout>s"` (the expert's own budget, in
seconds), and no retry is performed — `query_model` consumes exactly one
transport outcome, visible in its type. -/
theorem c8_timeout_result (cfg : ExpertCfg) (elapsedMs : Nat) :
    queryModel cfg elapsedMs Outcome.timeout =
      Except.ok { model := cfg.name, domain := cfg.domain, response := none,
                  weight := cfg.weight, duration_ms := elapsedMs, status := "timeout",
                  error := some ("Timeout after " ++ toString cfg.timeout ++ "s") } := rfl

/-- C10: `add_responses` replaces the stored responses with exactly the
filter of its argument (status "success" and truthy response); the previous
engine state is discarded, so `synthesize` depends only on the most recent
`add_responses` argument. -/
theorem c10_add_responses_replaces (new st st' : List ModelResponse) (q : String) :
    addResponses new st = new.filter keepPred ∧
    addResponses new st = addResponses new st' ∧
    synthesize q (addResponses new st) = synthesize q (addResponses new st') :=
  ⟨rfl, rfl, rfl⟩

/-! ### Dict-model invariants for the theme pipeline -/

theorem upsert_mem {β : Type} {e : String × β} {k : String} {v : β} :
    ∀ {l : List (String × β)}, e ∈ upsert k v l → e = (k, v) ∨ e ∈ l := by
  intro l
  induction l with
  | nil => intro h; simp [upsert] at h; exact Or.inl h
  | cons p rest ih =>
    obtain ⟨k', v'⟩ := p
    intro h
    by_cases hk : k' = k
    · simp only [upsert, if_pos hk] at h
      rcases List.mem_cons.mp h with h2 | h2
      · exact Or.inl h2
      · exact Or.inr (List.mem_cons_of_mem _ h2)
    · simp only [upsert, if_neg hk] at h
      rcases List.mem_cons.mp h with h2 | h2
      · exact Or.inr (h2 ▸ List.mem_cons_self _ _)
      · rcases ih h2 with h3 | h3
        · exact Or.inl h3
        · exact Or.inr (List.mem_cons_of_mem _ h3)

theorem upsert_keys_mem {β : Type} {a k : String} {v : β} {l : List (String × β)}
    (h : a ∈ (upsert k v l).map Prod.fst) : a = k ∨ a ∈ l.map Prod.fst := by
  obtain ⟨e, he, hea⟩ := List.mem_map.mp h
  rcases upsert_mem he with h2 | h2
  · rw [h2] at hea; exact Or.inl hea.symm
  · exact Or.inr (List.mem_map.mpr ⟨e, h2, hea⟩)

theorem upsert_keys_nodup {β : Type} {k : String} {v : β} :
    ∀ {l : List (String × β)}, (l.map Prod.fst).Nodup → ((upsert k v l).map Prod.fst).Nodup := by
  intro l
  induction l with
  | nil => intro _; simp [upsert]
  | cons p rest ih =>
    obtain ⟨k', v'⟩ := p
    intro h
    simp only [List.map_cons, List.nodup_cons] at h
    by_cases hk : k' = k
    · simp only [upsert, if_pos hk, List.map_cons, List.nodup_cons]
      exact ⟨by rw [← hk]; exact h.1, h.2⟩
    · simp only [upsert, if_neg hk, List.map_cons, List.nodup_cons]
      refine ⟨?_, ih h.2⟩
      intro hmem
      rcases upsert_keys_mem hmem with h2 | h2
      · exact hk h2
      · exact h.1 h2

theorem rpFold_inv (st : List ModelResponse) :
    ∀ acc : List (String × List String),
      (acc.map Prod.fst).Nodup → (∀ e ∈ acc, e.2.Nodup) →
      ((st.foldl (fun a r => upsert r.model (extractKeyPhrases (r.response.getD "")) a)
          acc).map Prod.fst).Nodup ∧
      ∀ e ∈ st.foldl (fun a r => upsert r.model (extractKeyPhrases (r.response.getD "")) a) acc,
        e.2.Nodup := by
  induction st with
  | nil => intro acc h1 h2; exact ⟨h1, h2⟩
  | cons r rest ih =>
    intro acc h1 h2
    rw [List.foldl_cons]
    apply ih
    · exact upsert_keys_nodup h1
    · intro e he
      rcases upsert_mem he with he2 | he2
      · rw [he2]; exact List.nodup_dedup _
      · exact h2 e he2

theorem appendAt_mem {β : Type} {e : String × List β} {k : String} {v : β} :
    ∀ {l : List (String × List β)}, e ∈ appendAt k v l →
      e = (k, [v]) ∨ (∃ vs, (k, vs) ∈ l ∧ e = (k, vs ++ [v])) ∨ e ∈ l := by
  intro l
  induction l with
  | nil => intro h; simp [appendAt] at h; exact Or.inl h
  | cons p rest ih =>
    obtain ⟨k', vs⟩ := p
    intro h
    by_cases hk : k' = k
    · simp only [appendAt, if_pos hk] at h
      rcases List.mem_cons.mp h with h2 | h2
      · subst hk
        exact Or.inr (Or.inl ⟨vs, List.mem_cons_self _ _, h2⟩)
      · exact Or.inr (Or.inr (List.mem_cons_of_mem _ h2))
    · simp only [appendAt, if_neg hk] at h
      rcases List.mem_cons.mp h with h2 | h2
      · exact Or.inr (Or.inr (h2 ▸ List.mem_cons_self _ _))
      · rcases ih h2 with h3 | ⟨vs2, hvs2, h3⟩ | h3
        · exact Or.inl h3
        · exact Or.inr (Or.inl ⟨vs2, List.mem_cons_of_mem _ hvs2, h3⟩)
        · exact Or.inr (Or.inr (List.mem_cons_of_mem _ h3))

theorem nodupSnoc {β : Type} {l : List β} {m : β} (h1 : l.Nodup) (h2 : m ∉ l) :
    (l ++ [m]).Nodup := by
  simp [List.nodup_append, h1, h2]

theorem innerFold_inv (m : String) (Q : String → Prop) :
    ∀ (ps : List String) (acc : List (String × List String)), ps.Nodup →
      (∀ e ∈ acc, e.2.Nodup ∧ (m ∈ e.2 → e.1 ∉ ps) ∧ ∀ x ∈ e.2, Q x) → Q m →
      ∀ e ∈ innerFoldPM m ps acc, e.2.Nodup ∧ ∀ x ∈ e.2, Q x := by
  intro ps
  induction ps with
  | nil =>
    intro acc _ hacc _ e he
    exact ⟨(hacc e he).1, (hacc e he).2.2⟩
  | cons q ps' ih =>
    intro acc hnd hacc hQ e he
    obtain ⟨hq, hnd'⟩ := List.nodup_cons.mp hnd
    simp only [innerFoldPM, List.foldl_cons] at he
    refine ih (appendAt q m acc) hnd' ?_ hQ e he
    intro e' he'
    rcases appendAt_mem he' with h1 | ⟨vs, hvs, h2⟩ | h3
    · rw [h1]
      exact ⟨by simp, fun _ => hq, fun x hx => by rw [List.mem_singleton.mp hx]; exact hQ⟩
    · obtain ⟨hnodup, hmem, hQall⟩ := hacc (q, vs) hvs
      have hmnotin : m ∉ vs := fun hin => (hmem hin) (List.mem_cons_self _ _)
      rw [h2]
      refine ⟨nodupSnoc hnodup hmnotin, fun _ => hq, ?_⟩
      intro x hx
      rcases List.mem_append.mp hx with hx2 | hx2
      · exact hQall x hx2
      · rw [List.mem_singleton.mp hx2]; exact hQ
    · obtain ⟨hnodup, hmem, hQall⟩ := hacc e' h3
      exact ⟨hnodup, fun hm hp => hmem hm (List.mem_cons_of_mem _ hp), hQall⟩

theorem pmFold_inv :
    ∀ (rp : List (String × List String)) (acc : List (String × List String)),
      (rp.map Prod.fst).Nodup → (∀ e ∈ rp, e.2.Nodup) →
      (∀ e ∈ acc, e.2.Nodup ∧ ∀ x ∈ e.2, x ∉ rp.map Prod.fst) →
      ∀ e ∈ rp.foldl (fun acc e => innerFoldPM e.1 e.2 acc) acc, e.2.Nodup := by
  intro rp
  induction rp with
  | nil => intro acc _ _ hacc e he; exact (hacc e he).1
  | cons p tail ih =>
    obtain ⟨m, ps⟩ := p
    intro acc hkeys hvals hacc e he
    simp only [List.foldl_cons] at he
    simp only [List.map_cons, List.nodup_cons] at hkeys
    have hstep : ∀ e' ∈ innerFoldPM m ps acc, e'.2.Nodup ∧ ∀ x ∈ e'.2, x ∉ tail.map Prod.fst := by
      refine innerFold_inv m (fun x => x ∉ tail.map Prod.fst) ps acc
        (hvals (m, ps) (List.mem_cons_self _ _)) ?_ hkeys.1
      intro e' he'
      obtain ⟨h1, h2⟩ := hacc e' he'
      refine ⟨h1, ?_, ?_⟩
      · intro hm
        exact absurd (by simp : m ∈ ((m, ps) :: tail).map Prod.fst) (h2 m hm)
      · intro x hx
        have := h2 x hx
        simp only [List.map_cons, List.mem_cons] at this
        exact fun hh => this (Or.inr hh)
    exact ih (innerFoldPM m ps acc) hkeys.2
      (fun e' he' => hvals e' (List.mem_cons_of_mem _ he')) hstep e he

theorem phraseModels_values_nodup {st : List ModelResponse} :
    ∀ e ∈ phraseModels (responsePhrases st), e.2.Nodup := by
  have h := rpFold_inv st [] (by simp) (by simp)
  intro e he
  exact pmFold_inv (responsePhrases st) [] h.1 h.2 (by simp) e he

/-! ### C6: theme invariants -/

/-- C6: every emitted theme has at least 2 supporting experts, the
supporting experts are pairwise distinct, and the confidence is the number
of supporting experts divided by the number of successful results; the
emitted sequence is sorted by descending confidence (`themeGe`) and holds
at most 10 themes. -/
theorem c6_theme_invariants (rs : List ModelResponse) (t : ExtractedTheme)
    (ht : t ∈ extractThemes (successFilter rs)) :
    (2 ≤ t.supporting_models.length ∧ t.supporting_models.Nodup ∧
      t.confidence = (t.supporting_models.length : ℚ) / ((successFilter rs).length : ℚ)) ∧
    (extractThemes (successFilter rs)).Pairwise themeGe ∧
    (extractThemes (successFilter rs)).length ≤ 10 := by
  refine ⟨?_, ?_, ?_⟩
  · simp only [extractThemes] at ht
    split at ht
    · simp at ht
    · have ht2 := (List.take_sublist 10 _).mem ht
      have ht3 := (List.perm_insertionSort themeGe _).mem_iff.mp ht2
      obtain ⟨e, he, hes⟩ := List.mem_filterMap.mp ht3
      simp only [mkTheme] at hes
      split at hes
      · rename_i hlen
        obtain ht4 := Option.some.inj hes
        refine ⟨?_, ?_, ?_⟩
        · rw [← ht4]; exact hlen
        · rw [← ht4]; exact phraseModels_values_nodup e he
        · rw [← ht4]
          show mkRat e.2.length (successFilter rs).length =
            ((e.2.length : ℚ)) / (((successFilter rs).length : ℚ))
          rw [Rat.mkRat_eq_div, Int.cast_natCast]
      · exact absurd hes (by simp)
  · simp only [extractThemes]
    split
    · exact List.Pairwise.nil
    · exact List.Pairwise.sublist (List.take_sublist 10 _)
        (List.sorted_insertionSort themeGe _)
  · simp only [extractThemes]
    split
    · simp
    · exact List.length_take_le 10 _

/-- C6 witness: two experts independently producing the phrase
"you should start with a wal" yield that theme with confidence 2/2 = 1. -/
theorem c6_witness :
    (2 ≤ fxTheme.supporting_models.length ∧ fxTheme.supporting_models.Nodup ∧
      fxTheme.confidence =
        (fxTheme.supporting_models.length : ℚ) / ((successFilter [fxA, fxB]).length : ℚ)) ∧
    (extractThemes (successFilter [fxA, fxB])).Pairwise themeGe ∧
    (extractThemes (successFilter [fxA, fxB])).length ≤ 10 :=
  c6_theme_invariants [fxA, fxB] fxTheme (by decide)

/-! ### C3: degenerate inputs -/

theorem extractThemes_singleton (r : ModelResponse) : extractThemes [r] = [] := by
  have hpm : ∀ e ∈ phraseModels (responsePhrases [r]), e.2.Nodup ∧ ∀ x ∈ e.2, x = r.model := by
    intro e he
    exact innerFold_inv r.model (fun x => x = r.model)
      (extractKeyPhrases (r.response.getD "")) []
      (List.nodup_dedup _) (by simp) rfl e he
  have hnone : ∀ e ∈ phraseModels (responsePhrases [r]), mkTheme [r] e = none := by
    intro e he
    obtain ⟨hnd, hall⟩ := hpm e he
    have hlen : e.2.length ≤ 1 := by
      cases he2 : e.2 with
      | nil => simp
      | cons a tl =>
        cases tl with
        | nil => simp
        | cons b tl2 =>
          exfalso
          have ha : a = r.model := hall a (by rw [he2]; exact List.mem_cons_self _ _)
          have hb : b = r.model := hall b (by rw [he2]; exact List.mem_cons_of_mem _ (List.mem_cons_self _ _))
          rw [he2] at hnd
          obtain ⟨hna, _⟩ := List.nodup_cons.mp hnd
          subst ha
          subst hb
          exact hna (List.mem_cons_self _ _)
    simp only [mkTheme]
    rw [if_neg (by omega)]
  simp only [extractThemes]
  rw [if_neg (by simp), List.filterMap_eq_nil_iff.mpr hnone]
  simp [List.insertionSort]

/-- C3 counterexample: for an input with exactly one successful response
containing a recommendation sentence, `extract_actions` is non-empty, so
not every extraction pass returns the empty sequence on 1 successful
response as the claim states. -/
theorem c3_single_response_actions_nonempty :
    extractActions (successFilter [fxSolo]) ≠ [] := by decide

/-- C3 (amended): with 0 or 1 successful responses the engine raises no
error, `extract_themes` and `detect_conflicts` return empty sequences, and
`calculate_consensus` returns exactly 1; `extract_actions` is empty for 0
successful responses (but may be non-empty for 1). -/
theorem c3_amended_degenerate (rs : List ModelResponse)
    (h : (successFilter rs).length ≤ 1) :
    extractThemes (successFilter rs) = [] ∧ detectConflicts (successFilter rs) = [] ∧
    calculateConsensus (successFilter rs) = 1 ∧
    (successFilter rs = [] → extractActions (successFilter rs) = []) := by
  have h2 : (successFilter rs).length < 2 := by omega
  refine ⟨?_, ?_, ?_, ?_⟩
  · cases hlen : (successFilter rs).length with
    | zero =>
      have h0 : successFilter rs = [] := List.length_eq_zero.mp hlen
      rw [h0]; rfl
    | succ n =>
      have h1 : (successFilter rs).length = 1 := by omega
      obtain ⟨r, hr⟩ := List.length_eq_one.mp h1
      rw [hr]; exact extractThemes_singleton r
  · simp [detectConflicts, h2]
  · simp [calculateConsensus, h2]
  · intro he; rw [he]; rfl

/-- C3 witness: one successful response gives empty themes and conflicts
and consensus 1. -/
theorem c3_witness :
    extractThemes (successFilter [fxSolo]) = [] ∧ detectConflicts (successFilter [fxSolo]) = [] ∧
    calculateConsensus (successFilter [fxSolo]) = 1 ∧
    (successFilter [fxSolo] = [] → extractActions (successFilter [fxSolo]) = []) :=
  c3_amended_degenerate [fxSolo] (by decide)

/-! ### C5: consensus score -/

/-- C5: `calculate_consensus` always lands in [0, 1]; it is exactly 1 when
there are fewer than 2 successful results, and otherwise equals
`clamp(themeScore - 0.1 * |conflicts|, 0, 1)` with
`themeScore = (sum of theme confidences) / max(|themes|, 1)`. -/
theorem c5_consensus_bounds (rs : List ModelResponse) :
    (0 ≤ calculateConsensus (successFilter rs) ∧ calculateConsensus (successFilter rs) ≤ 1) ∧
    ((successFilter rs).length < 2 → calculateConsensus (successFilter rs) = 1) ∧
    (2 ≤ (successFilter rs).length →
      calculateConsensus (successFilter rs) =
        max 0 (min 1
          ((((extractThemes (successFilter rs)).map ExtractedTheme.confidence).sum /
              ((max (extractThemes (successFilter rs)).length 1 : Nat) : ℚ)) -
            ((detectConflicts (successFilter rs)).length : ℚ) * (1 / 10)))) := by
  by_cases h : (successFilter rs).length < 2
  · have hval : calculateConsensus (successFilter rs) = 1 := by
      simp [calculateConsensus, h]
    exact ⟨by rw [hval]; norm_num, fun _ => hval, fun hc => absurd hc (by omega)⟩
  · have hval : calculateConsensus (successFilter rs) =
        max 0 (min 1
          ((((extractThemes (successFilter rs)).map ExtractedTheme.confidence).sum /
              ((max (extractThemes (successFilter rs)).length 1 : Nat) : ℚ)) -
            ((detectConflicts (successFilter rs)).length : ℚ) * (1 / 10))) := by
      simp only [calculateConsensus, if_neg h]
    refine ⟨?_, fun hc => absurd hc h, fun _ => hval⟩
    rw [hval]
    constructor
    · exact le_max_left 0 _
    · exact max_le (by norm_num) (min_le_left 1 _)

/-- C5 witness: a two-expert input exercises the clamp formula branch. -/
theorem c5_witness :
    2 ≤ (successFilter [fxA, fxB]).length ∧
    calculateConsensus (successFilter [fxA, fxB]) =
      max 0 (min 1
        ((((extractThemes (successFilter [fxA, fxB])).map ExtractedTheme.confidence).sum /
            ((max (extractThemes (successFilter [fxA, fxB])).length 1 : Nat) : ℚ)) -
          ((detectConflicts (successFilter [fxA, fxB])).length : ℚ) * (1 / 10))) :=
  ⟨by decide, (c5_consensus_bounds [fxA, fxB]).2.2 (by decide)⟩
